import Mathlib

/-!
sass-watcher: the watch-set coordinator of `lib/watcher.js`.

A shallow embedding of the `Watcher` class. Its fields become a record and its
methods become functions from a record to an `Outcome`: the value returned or
the error thrown, the record as the method leaves it, and the effects of the
call in order (`console.warn`, `emit`, `process.nextTick`).

The collaborators the class imports are arguments or small models:
* `parseFile` of sass-graph is an argument; it answers with the keys of the
  index of the graph, or with the error it throws;
* `difference` of lodash.difference keeps the values of its first array that
  are not in the second, in order;
* a chokidar handle on files is the list of paths it is subscribed to, changed
  by `watch`, `add` and `unwatch`; the handle on the root directory is the
  directory and its `ignored` pattern, and it reports a path only when the
  pattern matches neither the path nor a directory on the way to it;
* a `RegExp` is a syntax tree with a backtracking matcher, and `test` tries
  every start position;
* `process.nextTick` appends a callback to a queue that runs once the current
  synchronous code is over, before any observer event is delivered.
-/

namespace SassWatcher

/-! ## Regular expressions -/

/-- The constructs of JavaScript patterns that `initRootDirWatcher` uses. -/
inductive Re where
  | empty
  | char (c : Char)
  | word
  | seq (a b : Re)
  | alt (a b : Re)
  | plus (a : Re)
  | notAhead (a : Re)
  | bol
  | eol
  deriving DecidableEq, Repr

/-- A position in the subject string: whether it is index 0, and what is left
to read. -/
structure Cursor where
  atStart : Bool
  rest : List Char
  deriving DecidableEq, Repr

/-- The class `\w` without the unicode flag: `[A-Za-z0-9_]`. -/
def isWordChar (c : Char) : Bool :=
  c.isAlphanum || c == '_'

/-- One or more rounds of `step`. A round after the first goes on only from a
position that has moved forward, as the quantifier does. -/
def Re.iterate (step : Cursor → List Cursor) : Nat → Cursor → List Cursor
  | 0, _ => []
  | fuel + 1, cur =>
    (step cur).flatMap (fun next =>
      next :: (if next.rest.length < cur.rest.length then Re.iterate step fuel next else []))

/-- Every position at which a match of the pattern that starts at `cur` can
end. -/
def Re.run : Re → Cursor → List Cursor
  | .empty, cur => [cur]
  | .char c, cur =>
    match cur.rest with
    | [] => []
    | d :: rest => if d = c then [{ atStart := false, rest := rest }] else []
  | .word, cur =>
    match cur.rest with
    | [] => []
    | d :: rest => if isWordChar d then [{ atStart := false, rest := rest }] else []
  | .seq a b, cur => (a.run cur).flatMap (fun mid => b.run mid)
  | .alt a b, cur => a.run cur ++ b.run cur
  | .plus a, cur => Re.iterate (fun c => a.run c) (cur.rest.length + 1) cur
  | .notAhead a, cur => if (a.run cur).isEmpty then [cur] else []
  | .bol, cur => if cur.atStart then [cur] else []
  | .eol, cur => if cur.rest.isEmpty then [cur] else []

/-- Whether the pattern matches from this position or from a later one. -/
def Re.testFrom (re : Re) : Bool → List Char → Bool
  | atStart, [] => !(re.run { atStart := atStart, rest := [] }).isEmpty
  | atStart, c :: rest =>
    !(re.run { atStart := atStart, rest := c :: rest }).isEmpty || Re.testFrom re false rest

/-- The method `RegExp.prototype.test`. -/
def Re.test (re : Re) (s : String) : Bool :=
  re.testFrom true s.data

/-- The characters of a string, each one a literal. -/
def Re.str : List Char → Re
  | [] => .empty
  | c :: cs => .seq (.char c) (Re.str cs)

/-- The text `includeExtensions.join('|')` read as a pattern: the extensions
are alternatives, and no extension at all leaves the empty pattern. Each
character of an extension is taken as a literal, which is what the text means
when the extensions are made of word characters. -/
def Re.joined : List String → Re
  | [] => .empty
  | [e] => Re.str e.data
  | e :: es => .alt (Re.str e.data) (Re.joined es)

/-- The pattern `'(\\.(?!(' + includeExtensions.join('|') + '))\\w+$|^\\w+$)'`
of `initRootDirWatcher`. -/
def ignoredPattern (includeExtensions : List String) : Re :=
  .alt
    (.seq (.char '.') (.seq (.notAhead (Re.joined includeExtensions)) (.seq (.plus .word) .eol)))
    (.seq .bol (.seq (.plus .word) .eol))

/-! ## Collaborators -/

/-- What a method can throw: an error raised by `parseFile`, or the TypeError
of a method call on a field that is still `undefined`. -/
inductive Error where
  | thrown (message : String)
  | typeError (property : String)
  deriving DecidableEq, Repr

/-- The call `parseFile(inputPath, { loadPaths, extensions })` followed by
`Object.keys(graph.index)`: the paths of the graph, or the error thrown. -/
abbrev ParseFile := String → List String → List String → Except Error (List String)

/-- The function `difference(array, values)` of lodash.difference: the values
of `array` that are not in `values`, in the order of `array`. -/
def difference (array values : List String) : List String :=
  array.filter (fun v => decide (v ∉ values))

/-- A chokidar handle on a list of files: the paths it is subscribed to. -/
structure FSWatcher where
  watched : List String
  deriving DecidableEq, Repr

/-- The call `watch(paths)`. -/
def watch (paths : List String) : FSWatcher :=
  { watched := paths }

/-- The call `handle.add(paths)`. -/
def FSWatcher.add (handle : FSWatcher) (paths : List String) : FSWatcher :=
  { watched := handle.watched ++ paths }

/-- The call `handle.unwatch(paths)`. -/
def FSWatcher.unwatch (handle : FSWatcher) (paths : List String) : FSWatcher :=
  { watched := handle.watched.filter (fun p => decide (p ∉ paths)) }

/-- A chokidar handle on a directory, made by `watch(dir, { ignored })`. -/
structure RootDirWatcher where
  dir : String
  ignored : Re
  deriving DecidableEq, Repr

/-- The prefixes of a path below the watched directory at which a component
ends: each prefix that a `/` follows, and the whole. -/
def boundaries : List Char → List (List Char)
  | [] => [[]]
  | c :: rest => (if c = '/' then [[]] else []) ++ (boundaries rest).map (fun p => c :: p)

/-- The paths chokidar passes on its way from the watched directory to
`path`: the directory itself, every directory between, and `path`. A path that
does not start with the directory is not reached. -/
def walked (dir path : String) : List String :=
  if dir.data.isPrefixOf path.data then
    (boundaries (path.data.drop dir.data.length)).map (fun below => dir ++ String.mk below)
  else []

/-- Whether the handle reports events of `path`: chokidar tests `ignored` on
the watched directory and on every entry it finds, and does not descend into
a directory that the pattern matches. -/
def RootDirWatcher.reports (handle : RootDirWatcher) (path : String) : Bool :=
  !(walked handle.dir path).isEmpty &&
    (walked handle.dir path).all (fun reached => !handle.ignored.test reached)

/-- The method `Array.prototype.join`. -/
def join (sep : String) (xs : List String) : String :=
  sep.intercalate xs

/-- A function handed to `process.nextTick`. -/
inductive Callback where
  | emit (event : String)
  deriving DecidableEq, Repr

/-- What a method does besides changing fields. -/
inductive Effect where
  | warn (line : String)
  | emit (event : String)
  | nextTick (callback : Callback)
  deriving DecidableEq, Repr

/-- The events that a list of effects emits at once, in order. -/
def emitted : List Effect → List String
  | [] => []
  | .emit event :: rest => event :: emitted rest
  | _ :: rest => emitted rest

/-- The callbacks that a list of effects queues, in order. -/
def queued : List Effect → List Callback
  | [] => []
  | .nextTick callback :: rest => callback :: queued rest
  | _ :: rest => queued rest

/-! ## The fields of a `Watcher` -/

/-- The fields of the class. The two handles are `none` (the `undefined` of
the class body) until `initRootDirWatcher` and `initInputPathWatcher` run. -/
structure Watcher where
  inputPaths : List String
  includePaths : List String
  rootDir : String
  verbosity : Nat
  includeExtensions : List String
  watchedFiles : List String
  rootDirWatcher : Option RootDirWatcher
  inputPathWatcher : Option FSWatcher
  deriving DecidableEq, Repr

/-- What a method call leaves behind. -/
structure Outcome (α : Type) where
  result : Except Error α
  watcher : Watcher
  effects : List Effect

/-! ## constructor -/

/-- The static field `defaultExtensions`. -/
def defaultExtensions : List String := ["scss", "sass", "css"]

/-- The argument `inputOptions`; a field left out is `none`. -/
structure Options where
  includePaths : Option (List String)
  rootDir : Option String
  verbosity : Option Nat
  includeExtensions : Option (List String)

/-- The process the constructor runs in: `process.cwd()` and `path.resolve`. -/
structure Env where
  cwd : String
  resolve : String → String

/-- The expression `inputOptions || {}`. -/
def Options.orEmpty : Option Options → Options
  | some options => options
  | none => { includePaths := none, rootDir := none, verbosity := none, includeExtensions := none }

/-- The constructor. An empty string for `rootDir` is falsy and gives the
working directory; an empty array is truthy and is kept. -/
def Watcher.new (env : Env) (inputPath : String ⊕ List String) (inputOptions : Option Options) :
    Outcome Unit :=
  let options := Options.orEmpty inputOptions
  let inputPaths :=
    match inputPath with
    | .inl single => [env.resolve single]
    | .inr several => several.map env.resolve
  let includePaths :=
    match options.includePaths with
    | some paths => paths.map env.resolve
    | none => []
  let rootDir :=
    match options.rootDir with
    | some dir => if dir = "" then env.cwd else env.resolve dir
    | none => env.cwd
  let verbosity := options.verbosity.getD 0
  let includeExtensions := options.includeExtensions.getD defaultExtensions
  { result := .ok ()
    watcher :=
      { inputPaths := inputPaths
        includePaths := includePaths
        rootDir := rootDir
        verbosity := verbosity
        includeExtensions := includeExtensions
        watchedFiles := []
        rootDirWatcher := none
        inputPathWatcher := none }
    effects :=
      (if 1 ≤ verbosity then
        [Effect.warn ("Start watching \"" ++ join ", " inputPaths ++ "\"...")] else [])
      ++ [Effect.nextTick (.emit "init")] }

/-! ## getIncludedFiles -/

/-- The method `Array.prototype.flatMap` with a callback that may throw: the
callback runs on the elements in order and the first error ends the call. -/
def flatMapThrowing (f : String → Except Error (List String)) :
    List String → Except Error (List String)
  | [] => .ok []
  | x :: xs =>
    match f x with
    | .error e => .error e
    | .ok keys =>
      match flatMapThrowing f xs with
      | .error e => .error e
      | .ok rest => .ok (keys ++ rest)

/-- The method `getIncludedFiles`. -/
def getIncludedFiles (parseFile : ParseFile) (self : Watcher) : Except Error (List String) :=
  flatMapThrowing
    (fun inputPath => parseFile inputPath self.includePaths self.includeExtensions)
    self.inputPaths

/-! ## updateInputPathWatcher -/

/-- The three `console.warn` calls of `updateInputPathWatcher`. -/
def updateLog (verbosity : Nat)
    (startWatchingFiles stopWatchingFiles newWatchedFiles : List String) : List Effect :=
  (if 3 ≤ verbosity ∧ startWatchingFiles.length ≠ 0 then
    [Effect.warn ("Start watching files: " ++ join ", " startWatchingFiles)] else [])
  ++ (if 3 ≤ verbosity ∧ stopWatchingFiles.length ≠ 0 then
    [Effect.warn ("Stop watching files: " ++ join ", " stopWatchingFiles)] else [])
  ++ (if 3 ≤ verbosity ∧ startWatchingFiles.length + stopWatchingFiles.length ≠ 0 then
    [Effect.warn ("Currently watched files: " ++ join ", " newWatchedFiles)] else [])

/-- The method `updateInputPathWatcher`. An error of `getIncludedFiles` leaves
before any assignment; the calls on `inputPathWatcher` come after the
assignment of `watchedFiles`. -/
def updateInputPathWatcher (parseFile : ParseFile) (self : Watcher) :
    Outcome (List String × List String) :=
  match getIncludedFiles parseFile self with
  | .error e => { result := .error e, watcher := self, effects := [] }
  | .ok newWatchedFiles =>
    let startWatchingFiles := difference newWatchedFiles self.watchedFiles
    let stopWatchingFiles := difference self.watchedFiles newWatchedFiles
    let log := updateLog self.verbosity startWatchingFiles stopWatchingFiles newWatchedFiles
    match self.inputPathWatcher with
    | none =>
      { result := .error (.typeError "add")
        watcher := { self with watchedFiles := newWatchedFiles }
        effects := log }
    | some handle =>
      { result := .ok (startWatchingFiles, stopWatchingFiles)
        watcher := { self with
          watchedFiles := newWatchedFiles
          inputPathWatcher := some ((handle.add startWatchingFiles).unwatch stopWatchingFiles) }
        effects := log }

/-! ## initRootDirWatcher, initInputPathWatcher, run -/

/-- The names the root directory handle is listened on. -/
inductive RootDirEvent where
  | add
  | addDir
  | unlink
  | unlinkDir
  deriving DecidableEq, Repr

/-- The line of the `switch` in the listener of `initRootDirWatcher`. -/
def rootDirLine (eventName : RootDirEvent) (path : String) : String :=
  match eventName with
  | .add => "New file \"" ++ path ++ "\" is added"
  | .addDir => "New directory \"" ++ path ++ "\" is added"
  | .unlink => "File \"" ++ path ++ "\" is removed"
  | .unlinkDir => "Directory \"" ++ path ++ "\" is removed"

/-- The listener that `initRootDirWatcher` puts on `add`, `addDir`, `unlink`
and `unlinkDir`. -/
def rootDirListener (parseFile : ParseFile) (eventName : RootDirEvent) (path : String)
    (self : Watcher) : Outcome Unit :=
  let info := updateInputPathWatcher parseFile self
  match info.result with
  | .error e => { result := .error e, watcher := info.watcher, effects := info.effects }
  | .ok (startWatchingFiles, stopWatchingFiles) =>
    if 0 < startWatchingFiles.length ∨ 0 < stopWatchingFiles.length then
      { result := .ok ()
        watcher := info.watcher
        effects := info.effects
          ++ (if 2 ≤ info.watcher.verbosity then [Effect.warn (rootDirLine eventName path)]
              else [])
          ++ [Effect.emit "update"] }
    else
      { result := .ok (), watcher := info.watcher, effects := info.effects }

/-- The listener that `initInputPathWatcher` puts on `change`. -/
def changeListener (parseFile : ParseFile) (filePath : String) (self : Watcher) : Outcome Unit :=
  let info := updateInputPathWatcher parseFile self
  match info.result with
  | .error e => { result := .error e, watcher := info.watcher, effects := info.effects }
  | .ok _ =>
    { result := .ok ()
      watcher := info.watcher
      effects := info.effects
        ++ (if 2 ≤ info.watcher.verbosity then
              [Effect.warn ("File \"" ++ filePath ++ "\" is modified")] else [])
        ++ [Effect.emit "update"] }

/-- The method `initRootDirWatcher`. -/
def initRootDirWatcher (self : Watcher) : Outcome Unit :=
  { result := .ok ()
    watcher := { self with
      rootDirWatcher :=
        some { dir := self.rootDir, ignored := ignoredPattern self.includeExtensions } }
    effects := [] }

/-- The method `initInputPathWatcher`. -/
def initInputPathWatcher (parseFile : ParseFile) (self : Watcher) : Outcome Unit :=
  match getIncludedFiles parseFile self with
  | .error e => { result := .error e, watcher := self, effects := [] }
  | .ok files =>
    { result := .ok ()
      watcher := { self with watchedFiles := files, inputPathWatcher := some (watch files) }
      effects :=
        if 2 ≤ self.verbosity then
          [Effect.warn ("Initially watched files: " ++ join ", " files)] else [] }

/-- The method `run`. -/
def run (parseFile : ParseFile) (self : Watcher) : Outcome Unit :=
  let first := initRootDirWatcher self
  let second := initInputPathWatcher parseFile first.watcher
  { result := second.result, watcher := second.watcher, effects := first.effects ++ second.effects }

/-- Successive calls of `updateInputPathWatcher`, each with the answers that
`parseFile` gives at that moment. -/
def updates (self : Watcher) : List ParseFile → Watcher
  | [] => self
  | parseFile :: later => updates (updateInputPathWatcher parseFile self).watcher later

/-- The fine observer is subscribed to exactly the paths of `watchedFiles`. -/
def InSync (self : Watcher) : Prop :=
  ∃ handle, self.inputPathWatcher = some handle ∧
    ∀ p, p ∈ handle.watched ↔ p ∈ self.watchedFiles

/-- Whether the fine observer is subscribed to a path. -/
def Subscribed (self : Watcher) (p : String) : Prop :=
  ∃ handle, self.inputPathWatcher = some handle ∧ p ∈ handle.watched

/-! ## The event loop -/

/-- A watcher in its process: the callbacks queued with `process.nextTick`,
whether the caller has attached its listeners, and the events those listeners
have received. -/
structure Runtime where
  watcher : Watcher
  tickQueue : List Callback
  listening : Bool
  observed : List String

/-- Carry out the effects of a call: `emit` reaches the listeners attached at
that moment, `process.nextTick` queues. -/
def Runtime.perform (rt : Runtime) : List Effect → Runtime
  | [] => rt
  | .warn _ :: rest => Runtime.perform rt rest
  | .emit event :: rest =>
    Runtime.perform
      { rt with observed := if rt.listening then rt.observed ++ [event] else rt.observed } rest
  | .nextTick callback :: rest =>
    Runtime.perform { rt with tickQueue := rt.tickQueue ++ [callback] } rest

/-- Call a method of the watcher. -/
def Runtime.call {α : Type} (rt : Runtime) (method : Watcher → Outcome α) : Runtime :=
  Runtime.perform { rt with watcher := (method rt.watcher).watcher } (method rt.watcher).effects

/-- The effects of running a queued callback. -/
def Callback.effects : Callback → List Effect
  | .emit event => [.emit event]

/-- The synchronous code is over: the queued callbacks run in order. -/
def Runtime.drain (rt : Runtime) : Runtime :=
  rt.tickQueue.foldl (fun r callback => Runtime.perform r callback.effects)
    { rt with tickQueue := [] }

/-- The statement `new Watcher(inputPath, inputOptions)`. -/
def Runtime.construct (env : Env) (inputPath : String ⊕ List String)
    (inputOptions : Option Options) : Runtime :=
  Runtime.perform
    { watcher := (Watcher.new env inputPath inputOptions).watcher
      tickQueue := []
      listening := false
      observed := [] }
    (Watcher.new env inputPath inputOptions).effects

/-- The calls `watcher.on('init', ...)` and `watcher.on('update', ...)`. -/
def Runtime.on (rt : Runtime) : Runtime :=
  { rt with listening := true }

/-- An event of one of the two handles. -/
inductive ObserverEvent where
  | rootDir (eventName : RootDirEvent) (path : String)
  | change (filePath : String)
  deriving DecidableEq, Repr

/-- Deliver an observer event, with the answers `parseFile` gives at that
moment. The root directory handle drops a path that its `ignored` pattern
matches or that lies in a directory the pattern matches; the file handle
reports the files it is subscribed to. -/
def Runtime.deliver (rt : Runtime) (occurrence : ParseFile × ObserverEvent) : Runtime :=
  match occurrence.2 with
  | .rootDir eventName path =>
    match rt.watcher.rootDirWatcher with
    | none => rt
    | some handle =>
      if handle.reports path then (rt.call (rootDirListener occurrence.1 eventName path)).drain
      else rt
  | .change filePath =>
    match rt.watcher.inputPathWatcher with
    | none => rt
    | some handle =>
      if filePath ∈ handle.watched then (rt.call (changeListener occurrence.1 filePath)).drain
      else rt

/-- A caller that constructs a watcher, attaches its listeners right away and
calls `run`; then the observers report events. -/
def session (env : Env) (inputPath : String ⊕ List String) (inputOptions : Option Options)
    (parseFile : ParseFile) (occurrences : List (ParseFile × ObserverEvent)) : Runtime :=
  let constructed := Runtime.construct env inputPath inputOptions
  let attached := constructed.on
  let started := attached.call (run parseFile)
  occurrences.foldl Runtime.deliver started.drain

/-- The runtime once `init` has been delivered: nothing is queued, the
listeners are attached, and they have seen one `init` and then updates. -/
def Settled (rt : Runtime) : Prop :=
  rt.tickQueue = [] ∧ rt.listening = true ∧
    ∃ n, rt.observed = "init" :: List.replicate n "update"

/-- The text after a dot starts with one of the alternatives of
`includeExtensions.join('|')`; with no extension the only alternative is the
empty one, which every text starts with. -/
def StartsWithExtension (includeExtensions : List String) (rest : List Char) : Prop :=
  includeExtensions = [] ∨ ∃ e ∈ includeExtensions, e.data <+: rest

/-- A non-empty run of word characters. -/
def IsWord (s : List Char) : Prop :=
  s ≠ [] ∧ ∀ c ∈ s, isWordChar c = true

/-! ## A small project used in the examples

Two entry points `a.scss` and `b.scss`. At first both import `common.scss`;
later `a.scss` imports `c.scss` instead and `b.scss` imports nothing; in
between `b.scss` has a broken import. -/

/-- A watcher as the constructor leaves it. -/
def exampleWatcher : Watcher :=
  { inputPaths := ["/project/a.scss", "/project/b.scss"]
    includePaths := []
    rootDir := "/project"
    verbosity := 0
    includeExtensions := defaultExtensions
    watchedFiles := []
    rootDirWatcher := none
    inputPathWatcher := none }

/-- The graphs at first. -/
def keysBefore (p : String) : List String :=
  if p = "/project/a.scss" then ["/project/a.scss", "/project/common.scss"]
  else if p = "/project/b.scss" then ["/project/b.scss", "/project/common.scss"]
  else []

/-- The graphs later. -/
def keysAfter (p : String) : List String :=
  if p = "/project/a.scss" then ["/project/a.scss", "/project/c.scss"]
  else if p = "/project/b.scss" then ["/project/b.scss"]
  else []

/-- The answers of `parseFile` at first. -/
def parseBefore : ParseFile :=
  fun p _ _ =>
    if p = "/project/a.scss" ∨ p = "/project/b.scss" then .ok (keysBefore p)
    else .error (.thrown "ENOENT")

/-- The answers of `parseFile` later. -/
def parseAfter : ParseFile :=
  fun p _ _ =>
    if p = "/project/a.scss" ∨ p = "/project/b.scss" then .ok (keysAfter p)
    else .error (.thrown "ENOENT")

/-- The answers of `parseFile` while `b.scss` has a broken import. -/
def parseBroken : ParseFile :=
  fun p _ _ =>
    if p = "/project/a.scss" then .ok (keysAfter p)
    else .error (.thrown "File to import not found")

/-- The watcher after `run` on the first graphs. -/
def startedWatcher : Watcher :=
  (run parseBefore exampleWatcher).watcher

/-- The process of the example: every path is absolute already. -/
def exampleEnv : Env :=
  { cwd := "/project", resolve := fun p => p }

/-- The caller of the example once `init` has been delivered. -/
def startedRuntime : Runtime :=
  session exampleEnv (.inr ["/project/a.scss", "/project/b.scss"]) none parseBefore []

/-- The answers of `parseFile` once `a.scss` imports `v1.2/main.min.scss`. -/
def parseNested : ParseFile :=
  fun p _ _ =>
    if p = "/project/a.scss" then .ok ["/project/a.scss", "/project/v1.2/main.min.scss"]
    else if p = "/project/b.scss" then .ok ["/project/b.scss"]
    else .error (.thrown "ENOENT")

/-! ## Lemmas on the collaborators -/

lemma mem_difference (array values : List String) (p : String) :
    p ∈ difference array values ↔ p ∈ array ∧ p ∉ values := by
  simp [difference]

lemma difference_self (xs : List String) : difference xs xs = [] := by
  simp [difference]

lemma flatMapThrowing_ok (f : String → Except Error (List String)) (keys : String → List String)
    (xs : List String) (h : ∀ x ∈ xs, f x = .ok (keys x)) :
    flatMapThrowing f xs = .ok (xs.flatMap keys) := by
  induction xs with
  | nil => rfl
  | cons x xs ih =>
    have hx : f x = .ok (keys x) := h x (List.mem_cons_self x xs)
    have hxs : flatMapThrowing f xs = .ok (xs.flatMap keys) :=
      ih (fun y hy => h y (List.mem_cons_of_mem x hy))
    simp [flatMapThrowing, hx, hxs]

lemma flatMapThrowing_error (f : String → Except Error (List String)) (keys : String → List String)
    (before after : List String) (x : String) (e : Error)
    (hbefore : ∀ y ∈ before, f y = .ok (keys y)) (hx : f x = .error e) :
    flatMapThrowing f (before ++ x :: after) = .error e := by
  induction before with
  | nil => simp [flatMapThrowing, hx]
  | cons y ys ih =>
    have hy : f y = .ok (keys y) := hbefore y (List.mem_cons_self y ys)
    have hys := ih (fun z hz => hbefore z (List.mem_cons_of_mem y hz))
    simp [flatMapThrowing, hy, hys]

lemma getIncludedFiles_ok (parseFile : ParseFile) (self : Watcher) (keys : String → List String)
    (h : ∀ p ∈ self.inputPaths,
      parseFile p self.includePaths self.includeExtensions = .ok (keys p)) :
    getIncludedFiles parseFile self = .ok (self.inputPaths.flatMap keys) :=
  flatMapThrowing_ok _ keys self.inputPaths h

/-- What a call that returns has done, read off the definition. -/
lemma updateInputPathWatcher_ok_iff (parseFile : ParseFile) (self : Watcher)
    (added removed : List String) :
    (updateInputPathWatcher parseFile self).result = .ok (added, removed) ↔
      ∃ candidate handle,
        getIncludedFiles parseFile self = .ok candidate ∧
        self.inputPathWatcher = some handle ∧
        added = difference candidate self.watchedFiles ∧
        removed = difference self.watchedFiles candidate := by
  unfold updateInputPathWatcher
  cases hg : getIncludedFiles parseFile self with
  | error e => simp
  | ok candidate =>
    cases hw : self.inputPathWatcher with
    | none => simp
    | some handle =>
      simp only [Except.ok.injEq, Prod.mk.injEq, Option.some.injEq, exists_and_left,
        exists_eq_left', exists_eq', true_and]
      constructor
      · rintro ⟨h1, h2⟩
        exact ⟨h1.symm, h2.symm⟩
      · rintro ⟨h1, h2⟩
        exact ⟨h1.symm, h2.symm⟩

lemma updateInputPathWatcher_watcher (parseFile : ParseFile) (self : Watcher)
    (candidate : List String) (handle : FSWatcher)
    (hg : getIncludedFiles parseFile self = .ok candidate)
    (hw : self.inputPathWatcher = some handle) :
    (updateInputPathWatcher parseFile self).watcher =
      { self with
        watchedFiles := candidate
        inputPathWatcher := some ((handle.add (difference candidate self.watchedFiles)).unwatch
          (difference self.watchedFiles candidate)) } := by
  unfold updateInputPathWatcher
  simp [hg, hw]

lemma updateInputPathWatcher_error (parseFile : ParseFile) (self : Watcher) (e : Error)
    (hg : getIncludedFiles parseFile self = .error e) :
    updateInputPathWatcher parseFile self = { result := .error e, watcher := self, effects := [] } := by
  unfold updateInputPathWatcher
  simp [hg]

/-- The subscription after `add(added)` and `unwatch(removed)`. -/
lemma mem_resubscribed (handle : FSWatcher) (added removed : List String) (p : String) :
    p ∈ ((handle.add added).unwatch removed).watched ↔
      (p ∈ handle.watched ∨ p ∈ added) ∧ p ∉ removed := by
  simp only [FSWatcher.add, FSWatcher.unwatch, List.mem_filter, List.mem_append,
    decide_eq_true_eq]

/-! ## The watch set -/

/-- C1, as the code has it: when `parseFile` answers for every entry point,
`updateInputPathWatcher` on a watcher whose fine observer has been created (by
`initInputPathWatcher`) returns `[added, removed]` where, with
`candidate` the concatenation of the answers over `inputPaths`, `added` holds
exactly the paths of `candidate` that were not in `watchedFiles`, `removed`
holds exactly the paths of `watchedFiles` that are not in `candidate`, and
`watchedFiles` is `candidate` afterwards. -/
theorem updateInputPathWatcher_returns_diff (parseFile : ParseFile) (self : Watcher)
    (handle : FSWatcher) (keys : String → List String)
    (hstarted : self.inputPathWatcher = some handle)
    (hresolves : ∀ p ∈ self.inputPaths,
      parseFile p self.includePaths self.includeExtensions = .ok (keys p)) :
    getIncludedFiles parseFile self = .ok (self.inputPaths.flatMap keys) ∧
    ∃ added removed,
      (updateInputPathWatcher parseFile self).result = .ok (added, removed) ∧
      (∀ p, p ∈ added ↔ p ∈ self.inputPaths.flatMap keys ∧ p ∉ self.watchedFiles) ∧
      (∀ p, p ∈ removed ↔ p ∈ self.watchedFiles ∧ p ∉ self.inputPaths.flatMap keys) ∧
      (updateInputPathWatcher parseFile self).watcher.watchedFiles =
        self.inputPaths.flatMap keys := by
  have hg := getIncludedFiles_ok parseFile self keys hresolves
  refine ⟨hg, difference (self.inputPaths.flatMap keys) self.watchedFiles,
    difference self.watchedFiles (self.inputPaths.flatMap keys), ?_, ?_, ?_, ?_⟩
  · exact (updateInputPathWatcher_ok_iff parseFile self _ _).2 ⟨_, handle, hg, hstarted, rfl, rfl⟩
  · intro p
    exact mem_difference _ _ p
  · intro p
    exact mem_difference _ _ p
  · rw [updateInputPathWatcher_watcher parseFile self _ handle hg hstarted]

/-- C2: after a call of `updateInputPathWatcher` that returns `[added, removed]`,
a path is in the new `watchedFiles` exactly when it was in the previous
`watchedFiles` and is not in `removed`, or is in `added`; and no path is in
both `added` and `removed`. -/
theorem updateInputPathWatcher_applies_diff (parseFile : ParseFile) (self : Watcher)
    (added removed : List String)
    (hreturns : (updateInputPathWatcher parseFile self).result = .ok (added, removed)) :
    (∀ p, p ∈ (updateInputPathWatcher parseFile self).watcher.watchedFiles ↔
      (p ∈ self.watchedFiles ∧ p ∉ removed) ∨ p ∈ added) ∧
    (∀ p, ¬ (p ∈ added ∧ p ∈ removed)) := by
  obtain ⟨candidate, handle, hg, hw, rfl, rfl⟩ :=
    (updateInputPathWatcher_ok_iff parseFile self added removed).1 hreturns
  rw [updateInputPathWatcher_watcher parseFile self candidate handle hg hw]
  constructor
  · intro p
    simp only [mem_difference]
    by_cases hc : p ∈ candidate <;> by_cases ho : p ∈ self.watchedFiles <;> simp [hc, ho]
  · intro p
    simp only [mem_difference]
    tauto

/-- C3, as the code has it: when `updateInputPathWatcher` is called twice in
succession, the first call returns (the fine observer has been created and
`parseFile` answers for every entry point) and `parseFile` gives the same
answers in both calls, the second call returns an empty `added` and an empty
`removed`. -/
theorem updateInputPathWatcher_idempotent (parseFile : ParseFile) (self : Watcher)
    (added removed : List String)
    (hfirst : (updateInputPathWatcher parseFile self).result = .ok (added, removed)) :
    (updateInputPathWatcher parseFile (updateInputPathWatcher parseFile self).watcher).result =
      .ok ([], []) := by
  obtain ⟨candidate, handle, hg, hw, -, -⟩ :=
    (updateInputPathWatcher_ok_iff parseFile self added removed).1 hfirst
  rw [updateInputPathWatcher_watcher parseFile self candidate handle hg hw]
  refine (updateInputPathWatcher_ok_iff parseFile _ [] []).2 ⟨candidate, _, ?_, rfl, ?_, ?_⟩
  · exact hg
  · exact (difference_self candidate).symm
  · exact (difference_self candidate).symm

/-- C5: when `parseFile` answers for the entry points before one entry point
and throws on that one (the first, a middle one or the last),
`updateInputPathWatcher` throws the same error and leaves the watcher as it
was: `watchedFiles` and the subscription of the fine observer are unchanged. -/
theorem updateInputPathWatcher_atomic_on_error (parseFile : ParseFile) (self : Watcher)
    (before after : List String) (failing : String) (keys : String → List String) (e : Error)
    (hpaths : self.inputPaths = before ++ failing :: after)
    (hbefore : ∀ p ∈ before,
      parseFile p self.includePaths self.includeExtensions = .ok (keys p))
    (hfails : parseFile failing self.includePaths self.includeExtensions = .error e) :
    (updateInputPathWatcher parseFile self).result = .error e ∧
    (updateInputPathWatcher parseFile self).watcher = self ∧
    (updateInputPathWatcher parseFile self).watcher.watchedFiles = self.watchedFiles ∧
    (updateInputPathWatcher parseFile self).watcher.inputPathWatcher = self.inputPathWatcher := by
  have hg : getIncludedFiles parseFile self = .error e := by
    unfold getIncludedFiles
    rw [hpaths]
    exact flatMapThrowing_error _ keys before after failing e hbefore hfails
  rw [updateInputPathWatcher_error parseFile self e hg]
  exact ⟨rfl, rfl, rfl, rfl⟩

/-- C4, as the code has it: when `parseFile` answers every entry point with a
list that has no duplicate, `getIncludedFiles` returns those lists one after
the other, and the result has no duplicate exactly when the lists of entries
at different positions of `inputPaths` share no path. -/
theorem getIncludedFiles_nodup_iff (parseFile : ParseFile) (self : Watcher)
    (keys : String → List String)
    (hresolves : ∀ p ∈ self.inputPaths,
      parseFile p self.includePaths self.includeExtensions = .ok (keys p))
    (hnodup : ∀ p ∈ self.inputPaths, (keys p).Nodup) :
    getIncludedFiles parseFile self = .ok (self.inputPaths.flatMap keys) ∧
    ((self.inputPaths.flatMap keys).Nodup ↔
      self.inputPaths.Pairwise (fun a b => ∀ p, p ∈ keys a → p ∉ keys b)) := by
  refine ⟨getIncludedFiles_ok parseFile self keys hresolves, ?_⟩
  rw [List.nodup_flatMap]
  constructor
  · rintro ⟨-, hpair⟩
    exact hpair
  · intro hpair
    exact ⟨hnodup, hpair⟩

/-! ## The subscription of the fine observer -/

lemma inSync_initInputPathWatcher (parseFile : ParseFile) (self : Watcher)
    (hinit : (initInputPathWatcher parseFile self).result = .ok ()) :
    InSync (initInputPathWatcher parseFile self).watcher := by
  unfold initInputPathWatcher at hinit ⊢
  cases hg : getIncludedFiles parseFile self with
  | error e => simp [hg] at hinit
  | ok files => exact ⟨watch files, rfl, fun p => Iff.rfl⟩

lemma inSync_updateInputPathWatcher (parseFile : ParseFile) (self : Watcher)
    (hsync : InSync self) : InSync (updateInputPathWatcher parseFile self).watcher := by
  obtain ⟨handle, hw, hmem⟩ := hsync
  cases hg : getIncludedFiles parseFile self with
  | error e =>
    rw [updateInputPathWatcher_error parseFile self e hg]
    exact ⟨handle, hw, hmem⟩
  | ok candidate =>
    rw [updateInputPathWatcher_watcher parseFile self candidate handle hg hw]
    refine ⟨_, rfl, ?_⟩
    intro p
    rw [mem_resubscribed]
    simp only [mem_difference, hmem]
    by_cases hc : p ∈ candidate <;> by_cases ho : p ∈ self.watchedFiles <;> simp [hc, ho]

lemma inSync_updates (later : List ParseFile) (self : Watcher) (hsync : InSync self) :
    InSync (updates self later) := by
  induction later generalizing self with
  | nil => exact hsync
  | cons parseFile later ih =>
    exact ih _ (inSync_updateInputPathWatcher parseFile self hsync)

/-- C6: after `initInputPathWatcher` has returned, and after any number of
later calls of `updateInputPathWatcher`, the fine observer is subscribed to
exactly the paths of `watchedFiles`; and when one more call returns
`[added, removed]` this still holds, every path of `added` is subscribed and
no path of `removed` is. -/
theorem subscription_in_sync (first : ParseFile) (self : Watcher) (later : List ParseFile)
    (parseFile : ParseFile) (added removed : List String)
    (hinit : (initInputPathWatcher first self).result = .ok ())
    (hreturns : (updateInputPathWatcher parseFile
      (updates (initInputPathWatcher first self).watcher later)).result = .ok (added, removed)) :
    InSync (initInputPathWatcher first self).watcher ∧
    InSync (updates (initInputPathWatcher first self).watcher later) ∧
    InSync (updateInputPathWatcher parseFile
      (updates (initInputPathWatcher first self).watcher later)).watcher ∧
    (∀ p ∈ added, Subscribed (updateInputPathWatcher parseFile
      (updates (initInputPathWatcher first self).watcher later)).watcher p) ∧
    (∀ p ∈ removed, ¬ Subscribed (updateInputPathWatcher parseFile
      (updates (initInputPathWatcher first self).watcher later)).watcher p) := by
  have h0 := inSync_initInputPathWatcher first self hinit
  have h1 := inSync_updates later _ h0
  have h2 := inSync_updateInputPathWatcher parseFile _ h1
  refine ⟨h0, h1, h2, ?_, ?_⟩
  · intro p hp
    obtain ⟨candidate, handle, hg, hw, rfl, rfl⟩ :=
      (updateInputPathWatcher_ok_iff parseFile _ added removed).1 hreturns
    rw [updateInputPathWatcher_watcher parseFile _ candidate handle hg hw]
    refine ⟨_, rfl, ?_⟩
    rw [mem_resubscribed]
    rw [mem_difference] at hp
    refine ⟨Or.inr ((mem_difference _ _ p).2 hp), ?_⟩
    rw [mem_difference]
    tauto
  · intro p hp hsub
    obtain ⟨candidate, handle, hg, hw, rfl, rfl⟩ :=
      (updateInputPathWatcher_ok_iff parseFile _ added removed).1 hreturns
    rw [updateInputPathWatcher_watcher parseFile _ candidate handle hg hw] at hsub
    obtain ⟨handle2, heq, hmem⟩ := hsub
    simp only [Option.some.injEq] at heq
    subst heq
    rw [mem_resubscribed] at hmem
    exact hmem.2 hp

/-! ## Notifications -/

lemma emitted_append (xs ys : List Effect) : emitted (xs ++ ys) = emitted xs ++ emitted ys := by
  induction xs with
  | nil => rfl
  | cons x xs ih => cases x <;> simp [emitted, ih]

lemma queued_append (xs ys : List Effect) : queued (xs ++ ys) = queued xs ++ queued ys := by
  induction xs with
  | nil => rfl
  | cons x xs ih => cases x <;> simp [queued, ih]

lemma emitted_updateLog (verbosity : Nat) (a b c : List String) :
    emitted (updateLog verbosity a b c) = [] := by
  unfold updateLog
  simp only [emitted_append]
  split_ifs <;> simp [emitted]

lemma queued_updateLog (verbosity : Nat) (a b c : List String) :
    queued (updateLog verbosity a b c) = [] := by
  unfold updateLog
  simp only [queued_append]
  split_ifs <;> simp [queued]

lemma emitted_updateInputPathWatcher (parseFile : ParseFile) (self : Watcher) :
    emitted (updateInputPathWatcher parseFile self).effects = [] := by
  unfold updateInputPathWatcher
  cases getIncludedFiles parseFile self with
  | error e => simp [emitted]
  | ok candidate =>
    cases self.inputPathWatcher with
    | none => simp [emitted_updateLog]
    | some handle => simp [emitted_updateLog]

lemma queued_updateInputPathWatcher (parseFile : ParseFile) (self : Watcher) :
    queued (updateInputPathWatcher parseFile self).effects = [] := by
  unfold updateInputPathWatcher
  cases getIncludedFiles parseFile self with
  | error e => simp [queued]
  | ok candidate =>
    cases self.inputPathWatcher with
    | none => simp [queued_updateLog]
    | some handle => simp [queued_updateLog]

lemma emitted_warn_if (c : Prop) [Decidable c] (line : String) :
    emitted (if c then [Effect.warn line] else []) = [] := by
  split_ifs <;> simp [emitted]

lemma queued_warn_if (c : Prop) [Decidable c] (line : String) :
    queued (if c then [Effect.warn line] else []) = [] := by
  split_ifs <;> simp [queued]

/-- C7: when the recomputation returns `[added, removed]`, the listener of
`change` emits exactly one `update`, whatever `added` and `removed` are, and
the listener of `add`, `addDir`, `unlink` and `unlinkDir` emits exactly one
`update` when `added` or `removed` is not empty and emits nothing when both
are empty. -/
theorem update_emission_rule (parseFile : ParseFile) (self : Watcher)
    (added removed : List String) (filePath : String) (eventName : RootDirEvent) (path : String)
    (hreturns : (updateInputPathWatcher parseFile self).result = .ok (added, removed)) :
    emitted (changeListener parseFile filePath self).effects = ["update"] ∧
    (added ≠ [] ∨ removed ≠ [] →
      emitted (rootDirListener parseFile eventName path self).effects = ["update"]) ∧
    (added = [] ∧ removed = [] →
      emitted (rootDirListener parseFile eventName path self).effects = []) := by
  refine ⟨?_, ?_, ?_⟩
  · unfold changeListener
    simp only [hreturns, emitted_append, emitted_updateInputPathWatcher, emitted_warn_if]
    rfl
  · intro hne
    have hlen : 0 < added.length ∨ 0 < removed.length := by
      rcases hne with h | h
      · exact Or.inl (List.length_pos.2 h)
      · exact Or.inr (List.length_pos.2 h)
    unfold rootDirListener
    simp only [hreturns, hlen, if_true, emitted_append, emitted_updateInputPathWatcher,
      emitted_warn_if]
    rfl
  · rintro ⟨rfl, rfl⟩
    unfold rootDirListener
    simp only [hreturns, List.length_nil, lt_self_iff_false, or_self, if_false,
      emitted_updateInputPathWatcher]

/-! ## The event loop -/

lemma perform_listening (effects : List Effect) (rt : Runtime) :
    (rt.perform effects).listening = rt.listening := by
  induction effects generalizing rt with
  | nil => rfl
  | cons x xs ih => cases x <;> simp [Runtime.perform, ih]

lemma perform_watcher (effects : List Effect) (rt : Runtime) :
    (rt.perform effects).watcher = rt.watcher := by
  induction effects generalizing rt with
  | nil => rfl
  | cons x xs ih => cases x <;> simp [Runtime.perform, ih]

lemma perform_tickQueue (effects : List Effect) (rt : Runtime) :
    (rt.perform effects).tickQueue = rt.tickQueue ++ queued effects := by
  induction effects generalizing rt with
  | nil => simp [Runtime.perform, queued]
  | cons x xs ih => cases x <;> simp [Runtime.perform, queued, ih]

lemma perform_observed (effects : List Effect) (rt : Runtime) :
    (rt.perform effects).observed =
      rt.observed ++ (if rt.listening then emitted effects else []) := by
  induction effects generalizing rt with
  | nil => simp [Runtime.perform, emitted]
  | cons x xs ih =>
    cases x with
    | warn line => simp [Runtime.perform, emitted, ih]
    | emit event =>
      simp only [Runtime.perform, emitted, ih]
      cases rt.listening <;> simp
    | nextTick callback => simp [Runtime.perform, emitted, ih]

lemma emitted_new (env : Env) (inputPath : String ⊕ List String) (inputOptions : Option Options) :
    emitted (Watcher.new env inputPath inputOptions).effects = [] := by
  simp only [Watcher.new, emitted_append, emitted_warn_if]
  rfl

lemma queued_new (env : Env) (inputPath : String ⊕ List String) (inputOptions : Option Options) :
    queued (Watcher.new env inputPath inputOptions).effects = [.emit "init"] := by
  simp only [Watcher.new, queued_append, queued_warn_if]
  rfl

lemma emitted_initInputPathWatcher (parseFile : ParseFile) (self : Watcher) :
    emitted (initInputPathWatcher parseFile self).effects = [] := by
  unfold initInputPathWatcher
  cases getIncludedFiles parseFile self with
  | error e => rfl
  | ok files => exact emitted_warn_if _ _

lemma queued_initInputPathWatcher (parseFile : ParseFile) (self : Watcher) :
    queued (initInputPathWatcher parseFile self).effects = [] := by
  unfold initInputPathWatcher
  cases getIncludedFiles parseFile self with
  | error e => rfl
  | ok files => exact queued_warn_if _ _

lemma emitted_run (parseFile : ParseFile) (self : Watcher) :
    emitted (run parseFile self).effects = [] := by
  simp only [run, emitted_append, emitted_initInputPathWatcher]
  rfl

lemma queued_run (parseFile : ParseFile) (self : Watcher) :
    queued (run parseFile self).effects = [] := by
  simp only [run, queued_append, queued_initInputPathWatcher]
  rfl

lemma queued_changeListener (parseFile : ParseFile) (filePath : String) (self : Watcher) :
    queued (changeListener parseFile filePath self).effects = [] := by
  unfold changeListener
  cases h : (updateInputPathWatcher parseFile self).result with
  | error e => simp only [h, queued_updateInputPathWatcher]
  | ok info =>
    simp only [h, queued_append, queued_updateInputPathWatcher, queued_warn_if]
    rfl

lemma queued_rootDirListener (parseFile : ParseFile) (eventName : RootDirEvent) (path : String)
    (self : Watcher) : queued (rootDirListener parseFile eventName path self).effects = [] := by
  unfold rootDirListener
  cases h : (updateInputPathWatcher parseFile self).result with
  | error e => simp only [h, queued_updateInputPathWatcher]
  | ok info =>
    obtain ⟨added, removed⟩ := info
    simp only [h]
    by_cases hc : 0 < added.length ∨ 0 < removed.length
    · rw [if_pos hc]
      simp only [queued_append, queued_updateInputPathWatcher, queued_warn_if]
      rfl
    · rw [if_neg hc]
      simp only [queued_updateInputPathWatcher]

lemma emitted_changeListener (parseFile : ParseFile) (filePath : String) (self : Watcher) :
    ∃ n, emitted (changeListener parseFile filePath self).effects = List.replicate n "update" := by
  unfold changeListener
  cases h : (updateInputPathWatcher parseFile self).result with
  | error e => exact ⟨0, by simp only [h, emitted_updateInputPathWatcher]; rfl⟩
  | ok info =>
    refine ⟨1, ?_⟩
    simp only [h, emitted_append, emitted_updateInputPathWatcher, emitted_warn_if]
    rfl

lemma emitted_rootDirListener (parseFile : ParseFile) (eventName : RootDirEvent) (path : String)
    (self : Watcher) :
    ∃ n, emitted (rootDirListener parseFile eventName path self).effects =
      List.replicate n "update" := by
  unfold rootDirListener
  cases h : (updateInputPathWatcher parseFile self).result with
  | error e => exact ⟨0, by simp only [h, emitted_updateInputPathWatcher]; rfl⟩
  | ok info =>
    obtain ⟨added, removed⟩ := info
    simp only [h]
    by_cases hc : 0 < added.length ∨ 0 < removed.length
    · rw [if_pos hc]
      refine ⟨1, ?_⟩
      simp only [emitted_append, emitted_updateInputPathWatcher, emitted_warn_if]
      rfl
    · rw [if_neg hc]
      exact ⟨0, by simp only [emitted_updateInputPathWatcher]; rfl⟩

lemma drain_of_empty (rt : Runtime) (h : rt.tickQueue = []) : rt.drain = rt := by
  cases rt with
  | mk watcher tickQueue listening observed =>
    simp only at h
    subst h
    rfl

lemma settled_call {α : Type} (rt : Runtime) (method : Watcher → Outcome α)
    (hq : queued (method rt.watcher).effects = [])
    (he : ∃ n, emitted (method rt.watcher).effects = List.replicate n "update")
    (hs : Settled rt) : Settled (rt.call method).drain := by
  obtain ⟨htick, hlisten, n, hobs⟩ := hs
  obtain ⟨k, hk⟩ := he
  have hq2 : (rt.call method).tickQueue = [] := by
    simp [Runtime.call, perform_tickQueue, hq, htick]
  rw [drain_of_empty _ hq2]
  refine ⟨hq2, ?_, n + k, ?_⟩
  · simp [Runtime.call, perform_listening, hlisten]
  · show (Runtime.perform _ _).observed = _
    rw [perform_observed]
    simp only [hlisten, if_true, hobs, hk, List.cons_append, List.replicate_add]

lemma settled_deliver (rt : Runtime) (occurrence : ParseFile × ObserverEvent)
    (hs : Settled rt) : Settled (rt.deliver occurrence) := by
  unfold Runtime.deliver
  cases occurrence.2 with
  | rootDir eventName path =>
    cases rt.watcher.rootDirWatcher with
    | none => exact hs
    | some handle =>
      simp only
      split_ifs
      · exact settled_call rt _ (queued_rootDirListener _ _ _ _)
          (emitted_rootDirListener _ _ _ _) hs
      · exact hs
  | change filePath =>
    cases rt.watcher.inputPathWatcher with
    | none => exact hs
    | some handle =>
      simp only
      split_ifs
      · exact settled_call rt _ (queued_changeListener _ _ _) (emitted_changeListener _ _ _) hs
      · exact hs

lemma settled_foldl (occurrences : List (ParseFile × ObserverEvent)) (rt : Runtime)
    (hs : Settled rt) : Settled (occurrences.foldl Runtime.deliver rt) := by
  induction occurrences generalizing rt with
  | nil => exact hs
  | cons occurrence rest ih => exact ih _ (settled_deliver rt occurrence hs)

/-- C9: the constructor delivers no event and queues exactly one callback, the
one that emits `init`; so a caller that attaches its listeners right after the
construction, calls `run` and then receives observer events has seen exactly
one `init`, first, and after it only `update`. -/
theorem init_once_and_first (env : Env) (inputPath : String ⊕ List String)
    (inputOptions : Option Options) (parseFile : ParseFile)
    (occurrences : List (ParseFile × ObserverEvent)) :
    emitted (Watcher.new env inputPath inputOptions).effects = [] ∧
    queued (Watcher.new env inputPath inputOptions).effects = [.emit "init"] ∧
    (Runtime.construct env inputPath inputOptions).observed = [] ∧
    (Runtime.construct env inputPath inputOptions).tickQueue = [.emit "init"] ∧
    ∃ n, (session env inputPath inputOptions parseFile occurrences).observed =
      "init" :: List.replicate n "update" := by
  have hobs : (Runtime.construct env inputPath inputOptions).observed = [] := by
    simp [Runtime.construct, perform_observed]
  have htick : (Runtime.construct env inputPath inputOptions).tickQueue = [.emit "init"] := by
    simp [Runtime.construct, perform_tickQueue, queued_new]
  refine ⟨emitted_new env inputPath inputOptions, queued_new env inputPath inputOptions,
    hobs, htick, ?_⟩
  have hstarted : Settled
      (((Runtime.construct env inputPath inputOptions).on.call (run parseFile)).drain) := by
    have h1 : ((Runtime.construct env inputPath inputOptions).on.call (run parseFile)).tickQueue =
        [.emit "init"] := by
      simp [Runtime.call, Runtime.on, perform_tickQueue, queued_run, htick]
    have h2 : ((Runtime.construct env inputPath inputOptions).on.call (run parseFile)).listening =
        true := by
      simp [Runtime.call, Runtime.on, perform_listening]
    have h3 : ((Runtime.construct env inputPath inputOptions).on.call (run parseFile)).observed =
        [] := by
      simp [Runtime.call, Runtime.on, perform_observed, emitted_run, hobs]
    refine ⟨?_, ?_, 0, ?_⟩
    · simp [Runtime.drain, h1, Callback.effects, perform_tickQueue, queued]
    · simp [Runtime.drain, h1, Callback.effects, perform_listening, h2]
    · simp [Runtime.drain, h1, Callback.effects, perform_observed, h2, h3, emitted]
  exact (settled_foldl occurrences _ hstarted).2.2

/-! ## The ignore pattern of the coarse observer -/

lemma run_seq (a b : Re) (cur : Cursor) :
    (Re.seq a b).run cur = (a.run cur).flatMap (fun mid => b.run mid) := by
  rw [Re.run]

lemma run_alt (a b : Re) (cur : Cursor) : (Re.alt a b).run cur = a.run cur ++ b.run cur := by
  rw [Re.run]

lemma run_notAhead (a : Re) (cur : Cursor) :
    (Re.notAhead a).run cur = if (a.run cur).isEmpty then [cur] else [] := by
  rw [Re.run]

lemma run_char_cons (c d : Char) (b : Bool) (rest : List Char) :
    (Re.char c).run { atStart := b, rest := d :: rest } =
      if d = c then [{ atStart := false, rest := rest }] else [] := by
  rw [Re.run]

lemma run_bol (cur : Cursor) : Re.bol.run cur = if cur.atStart then [cur] else [] := by
  rw [Re.run]

lemma run_str_ne_nil (cs : List Char) (cur : Cursor) :
    (Re.str cs).run cur ≠ [] ↔ cs <+: cur.rest := by
  induction cs generalizing cur with
  | nil => simp [Re.str, Re.run]
  | cons c cs ih =>
    obtain ⟨b, s⟩ := cur
    cases s with
    | nil => simp [Re.str, Re.run]
    | cons d rest =>
      by_cases hd : d = c
      · subst hd
        simp only [Re.str, Re.run, if_true, List.flatMap_cons, List.flatMap_nil,
          List.append_nil, List.cons_prefix_cons, true_and]
        exact ih _
      · have hd2 : ¬ c = d := fun h => hd h.symm
        simp [Re.str, Re.run, hd, hd2, List.cons_prefix_cons]

lemma run_joined_ne_nil (es : List String) (cur : Cursor) :
    (Re.joined es).run cur ≠ [] ↔ StartsWithExtension es cur.rest := by
  induction es with
  | nil => simp [Re.joined, Re.run, StartsWithExtension]
  | cons e es ih =>
    cases es with
    | nil => simp [Re.joined, StartsWithExtension, run_str_ne_nil]
    | cons e2 es =>
      have ih2 : (Re.joined (e2 :: es)).run cur ≠ [] ↔ ∃ x ∈ e2 :: es, x.data <+: cur.rest := by
        rw [ih]
        simp [StartsWithExtension]
      simp only [Re.joined, Re.run, ne_eq, List.append_eq_nil, not_and_or]
      rw [← ne_eq, ← ne_eq, run_str_ne_nil, ih2]
      simp [StartsWithExtension]

lemma iterate_word_reaches_end (fuel : Nat) (b : Bool) (s : List Char) (hfuel : s.length ≤ fuel) :
    (∃ e ∈ Re.iterate (fun c => Re.word.run c) fuel { atStart := b, rest := s }, e.rest = []) ↔
      IsWord s := by
  induction fuel generalizing b s with
  | zero =>
    have hs : s = [] := List.length_eq_zero.1 (Nat.le_zero.1 hfuel)
    subst hs
    simp [Re.iterate, IsWord]
  | succ fuel ih =>
    cases s with
    | nil => simp [Re.iterate, Re.run, IsWord]
    | cons d rest =>
      have hrest : rest.length ≤ fuel := by
        simp only [List.length_cons] at hfuel
        omega
      by_cases hd : isWordChar d = true
      · have hstep := ih false rest hrest
        simp only [Re.iterate, Re.run, hd, if_true, List.flatMap_cons, List.flatMap_nil,
          List.append_nil, List.length_cons, Nat.lt_succ_self, List.mem_cons]
        constructor
        · rintro ⟨e, he | he, hend⟩
          · subst he
            simp only at hend
            subst hend
            exact ⟨List.cons_ne_nil _ _, by simp [hd]⟩
          · have hw := hstep.1 ⟨e, he, hend⟩
            refine ⟨List.cons_ne_nil _ _, ?_⟩
            intro c hc
            rcases List.mem_cons.1 hc with rfl | hc
            · exact hd
            · exact hw.2 c hc
        · rintro ⟨-, hall⟩
          by_cases hnil : rest = []
          · exact ⟨_, Or.inl rfl, hnil⟩
          · obtain ⟨e, he, hend⟩ := hstep.2
              ⟨hnil, fun c hc => hall c (List.mem_cons_of_mem d hc)⟩
            exact ⟨e, Or.inr he, hend⟩
      · simp only [Re.iterate, Re.run, hd, Bool.false_eq_true, if_false, List.flatMap_nil,
          List.not_mem_nil, false_and, exists_false, false_iff]
        rintro ⟨-, hall⟩
        exact hd (hall d (List.mem_cons_self d rest))

lemma run_word_plus_eol_ne_nil (cur : Cursor) :
    (Re.seq (.plus .word) .eol).run cur ≠ [] ↔ IsWord cur.rest := by
  obtain ⟨b, s⟩ := cur
  rw [← iterate_word_reaches_end (s.length + 1) b s (Nat.le_succ _)]
  simp only [Re.run, ne_eq, List.flatMap_eq_nil_iff, not_forall]
  constructor
  · rintro ⟨e, he, hne⟩
    refine ⟨e, he, ?_⟩
    by_contra hrest
    apply hne
    simp [hrest]
  · rintro ⟨e, he, hend⟩
    exact ⟨e, he, by simp [hend]⟩

lemma run_dot_branch_ne_nil (es : List String) (cur : Cursor) :
    (Re.seq (.char '.') (.seq (.notAhead (Re.joined es)) (.seq (.plus .word) .eol))).run cur ≠ [] ↔
      ∃ rest, cur.rest = '.' :: rest ∧ IsWord rest ∧ ¬ StartsWithExtension es rest := by
  obtain ⟨b, s⟩ := cur
  cases s with
  | nil => simp [Re.run]
  | cons d rest =>
    by_cases hd : d = '.'
    · subst hd
      have hj := run_joined_ne_nil es { atStart := false, rest := rest }
      have hw := run_word_plus_eol_ne_nil { atStart := false, rest := rest }
      rw [run_seq, run_char_cons, if_pos rfl]
      simp only [List.flatMap_cons, List.flatMap_nil, List.append_nil]
      rw [run_seq, run_notAhead]
      by_cases hstart : StartsWithExtension es rest
      · have hne : (Re.joined es).run { atStart := false, rest := rest } ≠ [] := hj.2 hstart
        have hfalse : ((Re.joined es).run { atStart := false, rest := rest }).isEmpty = false := by
          cases hr : (Re.joined es).run { atStart := false, rest := rest } with
          | nil => exact absurd hr hne
          | cons x xs => rfl
        rw [hfalse]
        simp [hstart]
      · have heq : (Re.joined es).run { atStart := false, rest := rest } = [] := by
          by_contra hne
          exact hstart (hj.1 hne)
        rw [heq]
        simp only [List.isEmpty_nil, if_true, List.flatMap_cons, List.flatMap_nil,
          List.append_nil]
        rw [hw]
        simp [hstart]
    · rw [run_seq, run_char_cons, if_neg hd]
      simp [hd]

lemma run_whole_branch_ne_nil (cur : Cursor) :
    (Re.seq .bol (.seq (.plus .word) .eol)).run cur ≠ [] ↔
      cur.atStart = true ∧ IsWord cur.rest := by
  obtain ⟨b, s⟩ := cur
  have hw := run_word_plus_eol_ne_nil { atStart := b, rest := s }
  rw [run_seq, run_bol]
  cases b with
  | false => simp
  | true =>
    simp only [if_true, List.flatMap_cons, List.flatMap_nil, List.append_nil, true_and]
    exact hw

lemma run_ignoredPattern_ne_nil (es : List String) (cur : Cursor) :
    (ignoredPattern es).run cur ≠ [] ↔
      (∃ rest, cur.rest = '.' :: rest ∧ IsWord rest ∧ ¬ StartsWithExtension es rest) ∨
      (cur.atStart = true ∧ IsWord cur.rest) := by
  rw [← run_dot_branch_ne_nil, ← run_whole_branch_ne_nil]
  unfold ignoredPattern
  rw [run_alt]
  simp only [ne_eq, List.append_eq_nil, not_and_or]

lemma isEmpty_eq_false_iff {α : Type} (xs : List α) : (!xs.isEmpty) = true ↔ xs ≠ [] := by
  cases xs <;> simp

lemma testFrom_ignoredPattern (es : List String) (b : Bool) (s : List Char) :
    (ignoredPattern es).testFrom b s = true ↔
      (b = true ∧ IsWord s) ∨
      ∃ before rest, s = before ++ '.' :: rest ∧ IsWord rest ∧ ¬ StartsWithExtension es rest := by
  induction s generalizing b with
  | nil =>
    simp only [Re.testFrom, isEmpty_eq_false_iff, run_ignoredPattern_ne_nil]
    simp [IsWord]
  | cons c s ih =>
    simp only [Re.testFrom, Bool.or_eq_true, isEmpty_eq_false_iff, run_ignoredPattern_ne_nil, ih]
    constructor
    · rintro ((⟨rest, hrest, hw, hs⟩ | h) | (h | ⟨before, rest, hrest, hw, hs⟩))
      · exact Or.inr ⟨[], rest, hrest, hw, hs⟩
      · exact Or.inl h
      · exact absurd h.1 (by simp)
      · exact Or.inr ⟨c :: before, rest, by simp [hrest], hw, hs⟩
    · rintro (h | ⟨before, rest, hrest, hw, hs⟩)
      · exact Or.inl (Or.inr h)
      · cases before with
        | nil => exact Or.inl (Or.inl ⟨rest, by simpa using hrest, hw, hs⟩)
        | cons x before =>
          simp only [List.cons_append, List.cons.injEq] at hrest
          exact Or.inr (Or.inr ⟨before, rest, hrest.2, hw, hs⟩)

/-- What the pattern of `initRootDirWatcher` matches: a path that is one run
of word characters, or a path with a dot followed to the end by a run of word
characters that does not start with one of the extensions. -/
lemma test_ignoredPattern (es : List String) (path : String) :
    (ignoredPattern es).test path = true ↔
      IsWord path.data ∨
      ∃ before rest, path.data = before ++ '.' :: rest ∧ IsWord rest ∧
        ¬ StartsWithExtension es rest := by
  unfold Re.test
  rw [testFrom_ignoredPattern]
  simp

lemma last_dot_unique (before before2 ext rest : List Char)
    (h : before ++ '.' :: ext = before2 ++ '.' :: rest)
    (hext : '.' ∉ ext) (hrest : '.' ∉ rest) : rest = ext := by
  rcases List.append_eq_append_iff.1 h with ⟨a, -, ha⟩ | ⟨a, -, ha⟩
  · cases a with
    | nil => simpa using ha.symm
    | cons x a =>
      simp only [List.cons_append, List.cons.injEq] at ha
      exact absurd (ha.2 ▸ (by simp : '.' ∈ a ++ '.' :: rest)) hext
  · cases a with
    | nil => simpa using ha
    | cons x a =>
      simp only [List.cons_append, List.cons.injEq] at ha
      exact absurd (ha.2 ▸ (by simp : '.' ∈ a ++ '.' :: ext)) hrest

lemma dot_not_mem_of_word (s : List Char) (h : ∀ c ∈ s, isWordChar c = true) : '.' ∉ s := by
  intro hmem
  have := h '.' hmem
  revert this
  decide

/-- When the extensions are made of word characters, a path that ends in a
dot followed by one of them, whatever comes before the dot, is not itself
matched by the ignore pattern of the coarse observer. -/
lemma relevant_path_not_matched (includeExtensions : List String) (before ext : String)
    (hword : ∀ e ∈ includeExtensions, ∀ c ∈ e.data, isWordChar c = true)
    (hext : ext ∈ includeExtensions) :
    (ignoredPattern includeExtensions).test (before ++ "." ++ ext) = false := by
  rw [Bool.eq_false_iff]
  intro htest
  have hdata : (before ++ "." ++ ext).data = before.data ++ '.' :: ext.data := by
    simp [String.data_append]
  have hdotext : '.' ∉ ext.data := dot_not_mem_of_word _ (hword ext hext)
  rcases (test_ignoredPattern includeExtensions _).1 htest with hw | ⟨b2, rest, hsplit, hw, hs⟩
  · have : '.' ∈ (before ++ "." ++ ext).data := by simp [hdata]
    exact dot_not_mem_of_word _ hw.2 this
  · rw [hdata] at hsplit
    have hrest : rest = ext.data :=
      last_dot_unique _ _ _ _ hsplit hdotext (dot_not_mem_of_word _ hw.2)
    apply hs
    right
    exact ⟨ext, hext, by rw [hrest]⟩

/-- C8, where the code departs from it: with the default extensions the cache
file `main.scssc` has the extension `scssc`, a run of word characters that is
not one of `scss`, `sass`, `css`, yet the ignore pattern does not match its
path, because the lookahead only asks whether the text after the dot starts
with an extension; the same holds for `a.css3` when the only extension is
`css`, and with no extension at all `a.txt` is not matched either. -/
theorem ignoredPattern_misses_longer_extension :
    ("scssc" ∉ defaultExtensions ∧ IsWord "scssc".data ∧
      (ignoredPattern defaultExtensions).test "/project/.sass-cache/main.scssc" = false) ∧
    ("css3" ∉ ["css"] ∧ IsWord "css3".data ∧
      (ignoredPattern ["css"]).test "/project/a.css3" = false) ∧
    (ignoredPattern ["css"]).test "/project/a.scss" = true ∧
    (ignoredPattern []).test "/project/a.txt" = false := by
  refine ⟨⟨by decide, ⟨by decide, by decide⟩, by decide⟩,
    ⟨by decide, ⟨by decide, by decide⟩, by decide⟩, by decide, by decide⟩

/-- A path that ends in a dot and a run of word characters is ignored when
that run does not start with one of the extensions. -/
lemma ignored_of_not_startsWithExtension (includeExtensions : List String) (before x : String)
    (hx : IsWord x.data) (hstart : ¬ StartsWithExtension includeExtensions x.data) :
    (ignoredPattern includeExtensions).test (before ++ "." ++ x) = true := by
  rw [test_ignoredPattern]
  right
  exact ⟨before.data, x.data, by simp [String.data_append], hx, hstart⟩

/-! ## The statements at the example project -/

lemma parseAfter_resolves (self : Watcher)
    (hpaths : self.inputPaths = ["/project/a.scss", "/project/b.scss"]) :
    ∀ p ∈ self.inputPaths,
      parseAfter p self.includePaths self.includeExtensions = .ok (keysAfter p) := by
  intro p hp
  rw [hpaths] at hp
  simp only [List.mem_cons, List.mem_singleton, List.not_mem_nil, or_false] at hp
  rcases hp with rfl | rfl <;> rfl

lemma parseBefore_resolves (self : Watcher)
    (hpaths : self.inputPaths = ["/project/a.scss", "/project/b.scss"]) :
    ∀ p ∈ self.inputPaths,
      parseBefore p self.includePaths self.includeExtensions = .ok (keysBefore p) := by
  intro p hp
  rw [hpaths] at hp
  simp only [List.mem_cons, List.mem_singleton, List.not_mem_nil, or_false] at hp
  rcases hp with rfl | rfl <;> rfl

/-- C1 at the example: the recomputation after `a.scss` has dropped
`common.scss` for `c.scss` and `b.scss` has dropped `common.scss`. -/
theorem updateInputPathWatcher_returns_diff_witness :
    startedWatcher.inputPathWatcher = some (watch startedWatcher.watchedFiles) ∧
    (getIncludedFiles parseAfter startedWatcher =
        .ok (startedWatcher.inputPaths.flatMap keysAfter) ∧
      ∃ added removed,
        (updateInputPathWatcher parseAfter startedWatcher).result = .ok (added, removed) ∧
        (∀ p, p ∈ added ↔
          p ∈ startedWatcher.inputPaths.flatMap keysAfter ∧ p ∉ startedWatcher.watchedFiles) ∧
        (∀ p, p ∈ removed ↔
          p ∈ startedWatcher.watchedFiles ∧ p ∉ startedWatcher.inputPaths.flatMap keysAfter) ∧
        (updateInputPathWatcher parseAfter startedWatcher).watcher.watchedFiles =
          startedWatcher.inputPaths.flatMap keysAfter) :=
  ⟨rfl, updateInputPathWatcher_returns_diff parseAfter startedWatcher
    (watch startedWatcher.watchedFiles) keysAfter rfl (parseAfter_resolves startedWatcher rfl)⟩

/-- C2 at the example: `c.scss` is added and `common.scss` is removed. -/
theorem updateInputPathWatcher_applies_diff_witness :
    (updateInputPathWatcher parseAfter startedWatcher).result =
      .ok (["/project/c.scss"], ["/project/common.scss", "/project/common.scss"]) ∧
    ((∀ p, p ∈ (updateInputPathWatcher parseAfter startedWatcher).watcher.watchedFiles ↔
      (p ∈ startedWatcher.watchedFiles ∧
        p ∉ ["/project/common.scss", "/project/common.scss"]) ∨ p ∈ ["/project/c.scss"]) ∧
    (∀ p, ¬ (p ∈ ["/project/c.scss"] ∧
      p ∈ ["/project/common.scss", "/project/common.scss"]))) :=
  ⟨rfl, updateInputPathWatcher_applies_diff parseAfter startedWatcher
    ["/project/c.scss"] ["/project/common.scss", "/project/common.scss"] rfl⟩

/-- C3 at the example: a second recomputation on the same graphs. -/
theorem updateInputPathWatcher_idempotent_witness :
    (updateInputPathWatcher parseAfter startedWatcher).result =
      .ok (["/project/c.scss"], ["/project/common.scss", "/project/common.scss"]) ∧
    (updateInputPathWatcher parseAfter
      (updateInputPathWatcher parseAfter startedWatcher).watcher).result = .ok ([], []) :=
  ⟨rfl, updateInputPathWatcher_idempotent parseAfter startedWatcher
    ["/project/c.scss"] ["/project/common.scss", "/project/common.scss"] rfl⟩

/-- C4 as stated fails at the example: both entry points import
`common.scss`, each answer of `parseFile` is free of duplicates, and
`getIncludedFiles`, hence `watchedFiles` after `initInputPathWatcher`, holds
`common.scss` twice; an entry point listed twice is there twice as well. -/
theorem getIncludedFiles_repeats_shared_path :
    (∀ p ∈ exampleWatcher.inputPaths,
      parseBefore p exampleWatcher.includePaths exampleWatcher.includeExtensions =
        .ok (keysBefore p)) ∧
    (∀ p ∈ exampleWatcher.inputPaths, (keysBefore p).Nodup) ∧
    getIncludedFiles parseBefore exampleWatcher =
      .ok ["/project/a.scss", "/project/common.scss", "/project/b.scss",
        "/project/common.scss"] ∧
    (initInputPathWatcher parseBefore exampleWatcher).watcher.watchedFiles =
      ["/project/a.scss", "/project/common.scss", "/project/b.scss", "/project/common.scss"] ∧
    ¬ ["/project/a.scss", "/project/common.scss", "/project/b.scss",
      "/project/common.scss"].Nodup ∧
    getIncludedFiles parseAfter
        { exampleWatcher with inputPaths := ["/project/b.scss", "/project/b.scss"] } =
      .ok ["/project/b.scss", "/project/b.scss"] ∧
    ¬ ["/project/b.scss", "/project/b.scss"].Nodup := by
  refine ⟨parseBefore_resolves exampleWatcher rfl, by decide, rfl, rfl, by decide, rfl,
    by decide⟩

/-- C4 as amended, at the example: the later graphs share no path. -/
theorem getIncludedFiles_nodup_iff_witness :
    (∀ p ∈ exampleWatcher.inputPaths, (keysAfter p).Nodup) ∧
    (getIncludedFiles parseAfter exampleWatcher =
        .ok (exampleWatcher.inputPaths.flatMap keysAfter) ∧
      ((exampleWatcher.inputPaths.flatMap keysAfter).Nodup ↔
        exampleWatcher.inputPaths.Pairwise (fun a b => ∀ p, p ∈ keysAfter a → p ∉ keysAfter b))) :=
  ⟨by decide, getIncludedFiles_nodup_iff parseAfter exampleWatcher keysAfter
    (parseAfter_resolves exampleWatcher rfl) (by decide)⟩

/-- C5 at the example: `b.scss`, the last entry point, has a broken import. -/
theorem updateInputPathWatcher_atomic_on_error_witness :
    startedWatcher.inputPaths = ["/project/a.scss"] ++ "/project/b.scss" :: [] ∧
    parseBroken "/project/b.scss" startedWatcher.includePaths startedWatcher.includeExtensions =
      .error (.thrown "File to import not found") ∧
    ((updateInputPathWatcher parseBroken startedWatcher).result =
        .error (.thrown "File to import not found") ∧
      (updateInputPathWatcher parseBroken startedWatcher).watcher = startedWatcher ∧
      (updateInputPathWatcher parseBroken startedWatcher).watcher.watchedFiles =
        startedWatcher.watchedFiles ∧
      (updateInputPathWatcher parseBroken startedWatcher).watcher.inputPathWatcher =
        startedWatcher.inputPathWatcher) :=
  ⟨rfl, rfl, updateInputPathWatcher_atomic_on_error parseBroken startedWatcher
    ["/project/a.scss"] [] "/project/b.scss" keysAfter (.thrown "File to import not found") rfl
    (by
      intro p hp
      simp only [List.mem_singleton] at hp
      subst hp
      rfl)
    rfl⟩

/-- C6 at the example: after the start, a recomputation on the later graphs
and a failed one, the first graphs come back. -/
theorem subscription_in_sync_witness :
    (initInputPathWatcher parseBefore exampleWatcher).result = .ok () ∧
    (updateInputPathWatcher parseBefore
      (updates (initInputPathWatcher parseBefore exampleWatcher).watcher
        [parseAfter, parseBroken])).result =
      .ok (["/project/common.scss", "/project/common.scss"], ["/project/c.scss"]) ∧
    (InSync (initInputPathWatcher parseBefore exampleWatcher).watcher ∧
    InSync (updates (initInputPathWatcher parseBefore exampleWatcher).watcher
      [parseAfter, parseBroken]) ∧
    InSync (updateInputPathWatcher parseBefore
      (updates (initInputPathWatcher parseBefore exampleWatcher).watcher
        [parseAfter, parseBroken])).watcher ∧
    (∀ p ∈ ["/project/common.scss", "/project/common.scss"],
      Subscribed (updateInputPathWatcher parseBefore
        (updates (initInputPathWatcher parseBefore exampleWatcher).watcher
          [parseAfter, parseBroken])).watcher p) ∧
    (∀ p ∈ ["/project/c.scss"],
      ¬ Subscribed (updateInputPathWatcher parseBefore
        (updates (initInputPathWatcher parseBefore exampleWatcher).watcher
          [parseAfter, parseBroken])).watcher p)) :=
  ⟨rfl, rfl, subscription_in_sync parseBefore exampleWatcher [parseAfter, parseBroken]
    parseBefore ["/project/common.scss", "/project/common.scss"] ["/project/c.scss"] rfl rfl⟩

/-- C7 at the example: a recomputation that adds `c.scss`. -/
theorem update_emission_rule_witness :
    (updateInputPathWatcher parseAfter startedWatcher).result =
      .ok (["/project/c.scss"], ["/project/common.scss", "/project/common.scss"]) ∧
    (emitted (changeListener parseAfter "/project/a.scss" startedWatcher).effects = ["update"] ∧
    (["/project/c.scss"] ≠ [] ∨ ["/project/common.scss", "/project/common.scss"] ≠ [] →
      emitted (rootDirListener parseAfter .add "/project/c.scss" startedWatcher).effects =
        ["update"]) ∧
    (["/project/c.scss"] = [] ∧ ["/project/common.scss", "/project/common.scss"] = [] →
      emitted (rootDirListener parseAfter .add "/project/c.scss" startedWatcher).effects =
        [])) :=
  ⟨rfl, update_emission_rule parseAfter startedWatcher ["/project/c.scss"]
    ["/project/common.scss", "/project/common.scss"] "/project/a.scss" .add "/project/c.scss" rfl⟩

/-- C1 as stated fails before the start: on the watcher that the constructor
leaves, `parseFile` answers for every entry point, yet
`updateInputPathWatcher` replaces `watchedFiles` and then throws a TypeError
on the missing fine observer instead of returning `[added, removed]`. -/
theorem updateInputPathWatcher_throws_before_start :
    exampleWatcher.inputPathWatcher = none ∧
    (∀ p ∈ exampleWatcher.inputPaths,
      parseBefore p exampleWatcher.includePaths exampleWatcher.includeExtensions =
        .ok (keysBefore p)) ∧
    (updateInputPathWatcher parseBefore exampleWatcher).result = .error (.typeError "add") ∧
    (¬ ∃ added removed,
      (updateInputPathWatcher parseBefore exampleWatcher).result = .ok (added, removed)) ∧
    (updateInputPathWatcher parseBefore exampleWatcher).watcher.watchedFiles =
      ["/project/a.scss", "/project/common.scss", "/project/b.scss",
        "/project/common.scss"] := by
  refine ⟨rfl, parseBefore_resolves exampleWatcher rfl, rfl, ?_, rfl⟩
  rintro ⟨added, removed, h⟩
  have herr : (updateInputPathWatcher parseBefore exampleWatcher).result =
      .error (.typeError "add") := rfl
  rw [herr] at h
  cases h

/-- C3 as stated fails before the start: on the watcher that the constructor
leaves, with the same answers of `parseFile` in both calls, the first call of
`updateInputPathWatcher` throws a TypeError and so does the second, which
therefore does not return two empty lists. -/
theorem updateInputPathWatcher_twice_throws_before_start :
    exampleWatcher.inputPathWatcher = none ∧
    (∀ p ∈ exampleWatcher.inputPaths,
      parseBefore p exampleWatcher.includePaths exampleWatcher.includeExtensions =
        .ok (keysBefore p)) ∧
    (updateInputPathWatcher parseBefore exampleWatcher).result = .error (.typeError "add") ∧
    (updateInputPathWatcher parseBefore
      (updateInputPathWatcher parseBefore exampleWatcher).watcher).result =
      .error (.typeError "add") ∧
    (updateInputPathWatcher parseBefore
      (updateInputPathWatcher parseBefore exampleWatcher).watcher).result ≠ .ok ([], []) := by
  refine ⟨rfl, parseBefore_resolves exampleWatcher rfl, rfl, rfl, ?_⟩
  intro h
  have herr : (updateInputPathWatcher parseBefore
      (updateInputPathWatcher parseBefore exampleWatcher).watcher).result =
      .error (.typeError "add") := rfl
  rw [herr] at h
  cases h

/-- C10, where the code departs from it: with the default extensions and the
root `/project`, the file `/project/v1.2/main.min.scss` ends in a relevant
extension and its own path is not matched by the ignore pattern, but the
pattern matches the directory `/project/v1.2` on the way to it, so the coarse
observer never reports the file: its `add` event reaches no listener, the
watcher stays as it was and no `update` is emitted, although the
recomputation would have added the file; the same event for `/project/c.scss`
is delivered. -/
theorem relevant_file_in_dotted_directory_filtered_out :
    "scss" ∈ defaultExtensions ∧
    (∀ e ∈ defaultExtensions, ∀ c ∈ e.data, isWordChar c = true) ∧
    (ignoredPattern defaultExtensions).test "/project/v1.2/main.min.scss" = false ∧
    (ignoredPattern defaultExtensions).test "/project/v1.2" = true ∧
    walked "/project" "/project/v1.2/main.min.scss" =
      ["/project", "/project/v1.2", "/project/v1.2/main.min.scss"] ∧
    startedRuntime.watcher.rootDirWatcher =
      some { dir := "/project", ignored := ignoredPattern defaultExtensions } ∧
    startedRuntime.observed = ["init"] ∧
    (updateInputPathWatcher parseNested startedRuntime.watcher).result =
      .ok (["/project/v1.2/main.min.scss"],
        ["/project/common.scss", "/project/common.scss"]) ∧
    (startedRuntime.deliver
      (parseNested, .rootDir .add "/project/v1.2/main.min.scss")).observed = ["init"] ∧
    (startedRuntime.deliver
      (parseNested, .rootDir .add "/project/v1.2/main.min.scss")).watcher =
      startedRuntime.watcher ∧
    (startedRuntime.deliver (parseAfter, .rootDir .add "/project/c.scss")).observed =
      ["init", "update"] := by
  refine ⟨by decide, by decide, by decide, by decide, by decide, rfl, rfl, rfl, rfl, rfl, rfl⟩

end SassWatcher
